import Mathlib

/-!
Shallow embedding of `src/server.js` (bounded LIFO stack server) and proofs
about its protocol state machine, bounded stack, admission control and
shutdown behaviour.

Conventions of the embedding:
* JS `Buffer`s are `List Nat` of byte values; `buffer[0]` on a buffer is
  `List.headD 0` (JS coerces `undefined` to `0` under bitwise operators).
* The global array `gLIFO` is a `List` whose LAST element is the top of the
  stack (`Array.prototype.push` appends, `Array.prototype.pop` removes the
  last element).
* JS numbers that can go negative (`payloadBytesRead = buffer.length - 1`)
  are `Int`.
* `Date.now()` timestamps are `Nat` (milliseconds); the elapsed-seconds
  computation `(now - earliest) / 1000` is done in `ℚ` for exact division.
* A JS `TypeError` (property access on `undefined`) is `Except.error .typeError`.
-/

namespace Philo

/-- A single byte value (JS Buffers hold numbers 0..255). -/
abbrev Byte := Nat

/-- An opaque payload: the byte sequence stored on the LIFO stack. -/
abbrev Payload := List Byte

/-- One entry of the global `gClients` object (`server.js` lines 166-171):
creation timestamp, human-readable counter, and the pending-disconnect flag.
The `client` socket handle is not part of the value model. -/
structure ClientRecord where
  timestamp : Nat
  counter : Nat
  disconnect : Bool
deriving DecidableEq, Repr

/-- A JavaScript runtime error. Reading a property of `undefined` (for
example `gClients[myUUID].disconnect` after the record was deleted) throws
a `TypeError`. -/
inductive JSError where
  | typeError
deriving DecidableEq, Repr

instance {e a : Type} [DecidableEq e] [DecidableEq a] : DecidableEq (Except e a) := fun x y =>
  match x, y with
  | .error v, .error w =>
    if h : v = w then isTrue (by rw [h]) else isFalse (fun hc => h (by injection hc))
  | .error _, .ok _ => isFalse (fun hc => Except.noConfusion hc)
  | .ok _, .error _ => isFalse (fun hc => Except.noConfusion hc)
  | .ok v, .ok w =>
    if h : v = w then isTrue (by rw [h]) else isFalse (fun hc => h (by injection hc))

/-- Result of one attempt of the `checkStackEmpty` retry closure
(`server.js` lines 193-220): it either does nothing because the server is
dying (`gKillMe || exitLoop`), pops the top payload and sends the framed
response, or reschedules itself because the stack is empty. -/
inductive PopStep where
  | abandoned
  | popped (gLIFO : List Payload) (response : List Byte)
  | waiting
deriving DecidableEq, Repr

/-- Result of one attempt of the `checkStackFull` retry closure
(`server.js` lines 267-283). -/
inductive PushStep where
  | abandoned
  | pushed (gLIFO : List Payload) (response : List Byte)
  | waiting
deriving DecidableEq, Repr

/-- `checkStackEmpty` (`server.js` lines 193-220): if neither kill flag is
set and `gLIFO` is nonempty, `gLIFO.pop()` removes the last element
`payload` and the response buffer is `payload.length & 0x7F` followed by the
payload bytes; on an empty stack the closure reschedules itself (waiting). -/
def checkStackEmpty (gKillMe exitLoop : Bool) (gLIFO : List Payload) : PopStep :=
  if gKillMe || exitLoop then
    .abandoned
  else
    match gLIFO.getLast? with
    | some payload => .popped gLIFO.dropLast ((payload.length &&& 0x7F) :: payload)
    | none => .waiting

/-- `checkStackFull` (`server.js` lines 267-283): if neither kill flag is set
and `gLIFO.length < config.maxStackSize`, the combined payload is appended
(`gLIFO.push`) and the single byte `0x00` is sent; on a full stack the
closure reschedules itself (waiting). -/
def checkStackFull (gKillMe exitLoop : Bool) (maxStackSize : Nat)
    (gLIFO : List Payload) (combinedPayload : Payload) : PushStep :=
  if gKillMe || exitLoop then
    .abandoned
  else if gLIFO.length < maxStackSize then
    .pushed (gLIFO ++ [combinedPayload]) [0x00]
  else
    .waiting

/-- Run a sequence of push operations (each one a completed `checkStackFull`)
with no interleaved pops; `none` if any push does not complete immediately. -/
def runPushes (maxStackSize : Nat) (gLIFO : List Payload) :
    List Payload → Option (List Payload)
  | [] => some gLIFO
  | p :: ps =>
    match checkStackFull false false maxStackSize gLIFO p with
    | .pushed gLIFO2 _ => runPushes maxStackSize gLIFO2 ps
    | _ => none

/-- Run `n` pop operations (each one a completed `checkStackEmpty`) with no
interleaved pushes, returning the popped payloads in pop order (each payload
is the response minus its header byte) and the final stack; `none` if any
pop does not complete immediately. -/
def runPops : List Payload → Nat → Option (List Payload × List Payload)
  | gLIFO, 0 => some ([], gLIFO)
  | gLIFO, n + 1 =>
    match checkStackEmpty false false gLIFO with
    | .popped gLIFO2 response =>
      match runPops gLIFO2 n with
      | some (ps, final) => some (response.drop 1 :: ps, final)
      | none => none
    | _ => none

/-- The stacks reachable from the initial empty `gLIFO` by completed pushes
and pops of the two retry closures. -/
inductive StackReachable (maxStackSize : Nat) : List Payload → Prop
  | init : StackReachable maxStackSize []
  | push (s s' : List Payload) (p : Payload) (r : List Byte) :
      StackReachable maxStackSize s →
      checkStackFull false false maxStackSize s p = .pushed s' r →
      StackReachable maxStackSize s'
  | pop (s s' : List Payload) (r : List Byte) :
      StackReachable maxStackSize s →
      checkStackEmpty false false s = .popped s' r →
      StackReachable maxStackSize s'

section StackLemmas

/-- Popping a stack whose top (last element) is `p` removes exactly `p` and
responds with the masked length header followed by `p`. -/
theorem checkStackEmpty_append (s : List Payload) (p : Payload) :
    checkStackEmpty false false (s ++ [p]) = .popped s ((p.length &&& 0x7F) :: p) := by
  simp [checkStackEmpty]

/-- A push on a non-full stack appends exactly the given payload. -/
theorem checkStackFull_room (maxStackSize : Nat) (s : List Payload) (p : Payload)
    (h : s.length < maxStackSize) :
    checkStackFull false false maxStackSize s p = .pushed (s ++ [p]) [0x00] := by
  simp [checkStackFull, h]

/-- A push on a full stack stays waiting. -/
theorem checkStackFull_full (maxStackSize : Nat) (s : List Payload) (p : Payload)
    (h : ¬ s.length < maxStackSize) :
    checkStackFull false false maxStackSize s p = .waiting := by
  simp [checkStackFull, h]

theorem runPushes_append (maxStackSize : Nat) :
    ∀ (ps : List Payload) (s : List Payload),
      s.length + ps.length ≤ maxStackSize →
      runPushes maxStackSize s ps = some (s ++ ps)
  | [], s, _ => by simp [runPushes]
  | p :: ps, s, h => by
    have hs : s.length < maxStackSize := by
      simp only [List.length_cons] at h
      omega
    rw [runPushes, checkStackFull_room maxStackSize s p hs]
    show runPushes maxStackSize (s ++ [p]) ps = some (s ++ p :: ps)
    rw [runPushes_append maxStackSize ps (s ++ [p])
      (by simp only [List.length_cons] at h; simp only [List.length_append,
        List.length_singleton]; omega)]
    simp

theorem runPops_reverse (s : List Payload) :
    runPops s s.length = some (s.reverse, []) := by
  induction s using List.reverseRecOn with
  | nil => simp [runPops]
  | append_singleton s p ih =>
    rw [List.length_append, List.length_singleton, runPops,
      checkStackEmpty_append s p]
    show (match runPops s s.length with
      | some (ps, final) => some ((((p.length &&& 0x7F) :: p).drop 1) :: ps, final)
      | none => none) = some ((s ++ [p]).reverse, [])
    rw [ih]
    simp

theorem stackReachable_length_le (maxStackSize : Nat) (s : List Payload)
    (h : StackReachable maxStackSize s) : s.length ≤ maxStackSize := by
  induction h with
  | init => simp
  | push s s' p r _ hstep ih =>
    have := hstep
    simp only [checkStackFull, Bool.or_false, if_neg (by simp : ¬ (false : Bool) = true)] at this
    split at this
    · cases this
      simp only [List.length_append, List.length_singleton]
      omega
    · cases this
  | pop s s' r _ hstep ih =>
    have := hstep
    simp only [checkStackEmpty, Bool.or_false, if_neg (by simp : ¬ (false : Bool) = true)] at this
    split at this
    · cases this
      have := List.length_dropLast s
      omega
    · cases this

end StackLemmas

theorem checkStackEmpty_popped_eq {s s2 : List Payload} {r : List Byte}
    (h : checkStackEmpty false false s = .popped s2 r) :
    s2 = s.dropLast ∧ s ≠ [] := by
  induction s using List.reverseRecOn with
  | nil => simp [checkStackEmpty] at h
  | append_singleton s' p _ =>
    rw [checkStackEmpty_append] at h
    injection h with h1 h2
    subst h1
    simp

/-- Claim C1: for every sequence of N pushes with distinct payloads followed
by N pops with no interleaving, the popped payloads are the exact reverse of
the pushed sequence, and each individual pop removes and returns the most
recently pushed remaining payload (the last element of `gLIFO`). -/
theorem lifo_push_pop_reversal (maxStackSize : Nat) (ps : List Payload)
    (s : List Payload) (p : Payload)
    (_hnodup : ps.Nodup) (hlen : ps.length ≤ maxStackSize) :
    runPushes maxStackSize [] ps = some ps ∧
    runPops ps ps.length = some (ps.reverse, []) ∧
    checkStackEmpty false false (s ++ [p]) = .popped s ((p.length &&& 0x7F) :: p) := by
  refine ⟨?_, runPops_reverse ps, checkStackEmpty_append s p⟩
  have h := runPushes_append maxStackSize ps [] (by simpa using hlen)
  simpa using h

theorem lifo_push_pop_reversal_spot :
    (([[65], [66]] : List Payload).Nodup ∧ ([[65], [66]] : List Payload).length ≤ 2) ∧
    (runPushes 2 [] [[65], [66]] = some [[65], [66]] ∧
     runPops [[65], [66]] ([[65], [66]] : List Payload).length = some ([[66], [65]], []) ∧
     checkStackEmpty false false ([] ++ [[65]]) =
       .popped [] ((([65] : Payload).length &&& 0x7F) :: [65])) :=
  ⟨⟨by decide, by decide⟩,
    lifo_push_pop_reversal 2 [[65], [66]] [] [65] (by decide) (by decide)⟩

/-- Claim C2: the stack size always satisfies `0 ≤ size ≤ maxStackSize`
(sizes are naturals, so only the upper bound is substantive); a push issued
at capacity stays waiting without modifying the stack, completes exactly
(appending precisely its payload, no error, no drop) once a pop has made
room; and with `maxStackSize = k`, `k` pushes from empty all complete while
the `(k+1)`-th push is still waiting. -/
theorem bounded_capacity (maxStackSize k : Nat) (s ps : List Payload) (p q : Payload)
    (hreach : StackReachable maxStackSize s) (hk : ps.length = k) :
    s.length ≤ maxStackSize ∧
    (s.length = maxStackSize →
      checkStackFull false false maxStackSize s p = .waiting) ∧
    (s.length < maxStackSize →
      checkStackFull false false maxStackSize s p = .pushed (s ++ [p]) [0x00]) ∧
    (∀ s2 r, s.length = maxStackSize → checkStackEmpty false false s = .popped s2 r →
      checkStackFull false false maxStackSize s2 p = .pushed (s2 ++ [p]) [0x00]) ∧
    runPushes k [] ps = some ps ∧
    checkStackFull false false k ps q = .waiting := by
  refine ⟨stackReachable_length_le _ _ hreach, ?_, ?_, ?_, ?_, ?_⟩
  · intro hfull
    exact checkStackFull_full _ _ _ (by omega)
  · intro hroom
    exact checkStackFull_room _ _ _ hroom
  · intro s2 r hfull hpop
    obtain ⟨hs2, hne⟩ := checkStackEmpty_popped_eq hpop
    subst hs2
    apply checkStackFull_room
    have h1 := List.length_dropLast s
    have h2 : 0 < s.length := List.length_pos.mpr hne
    omega
  · subst hk
    have h := runPushes_append ps.length ps [] (by simp)
    simpa using h
  · exact checkStackFull_full _ _ _ (by omega)

theorem bounded_capacity_spot :
    (StackReachable 1 [] ∧ ([[65]] : List Payload).length = 1) ∧
    (([] : List Payload).length ≤ 1 ∧
     (([] : List Payload).length = 1 → checkStackFull false false 1 [] [66] = .waiting) ∧
     (([] : List Payload).length < 1 →
       checkStackFull false false 1 [] [66] = .pushed ([] ++ [[66]]) [0x00]) ∧
     (∀ s2 r, ([] : List Payload).length = 1 →
       checkStackEmpty false false [] = .popped s2 r →
       checkStackFull false false 1 s2 [66] = .pushed (s2 ++ [[66]]) [0x00]) ∧
     runPushes 1 [] [[65]] = some [[65]] ∧
     checkStackFull false false 1 [[65]] [67] = .waiting) :=
  ⟨⟨.init, rfl⟩, bounded_capacity 1 1 [] [[65]] [66] [67] .init rfl⟩

/-- Claim C10: every pop-success response starts with the stored payload's
length masked by `0x7F`, hence the first byte is below `0x80` and in
particular never equals the admission-rejection byte `0xFF`. -/
theorem pop_response_header (kill exitLoop : Bool) (s s2 : List Payload) (r : List Byte)
    (h : checkStackEmpty kill exitLoop s = .popped s2 r) :
    ∃ payload, r = (payload.length &&& 0x7F) :: payload ∧
      ∀ b, r.head? = some b → b < 0x80 ∧ b ≠ 0xFF := by
  unfold checkStackEmpty at h
  by_cases hk : (kill || exitLoop) = true
  · rw [if_pos hk] at h
    exact absurd h (by simp)
  · rw [if_neg hk] at h
    cases hgl : s.getLast? with
    | none =>
      rw [hgl] at h
      exact absurd h (by simp)
    | some payload =>
      rw [hgl] at h
      injection h with h1 h2
      refine ⟨payload, h2.symm, ?_⟩
      intro b hb
      rw [← h2] at hb
      simp only [List.head?_cons, Option.some.injEq] at hb
      have hle : payload.length &&& 0x7F ≤ 0x7F := Nat.and_le_right
      subst hb
      refine ⟨Nat.lt_of_le_of_lt hle (by norm_num), fun hEq => ?_⟩
      rw [hEq] at hle
      exact absurd hle (by norm_num)

theorem pop_response_header_spot :
    checkStackEmpty false false [[65]] = .popped [] [1, 65] ∧
    (∃ payload, ([1, 65] : List Byte) = (payload.length &&& 0x7F) :: payload ∧
      ∀ b, ([1, 65] : List Byte).head? = some b → b < 0x80 ∧ b ≠ 0xFF) :=
  ⟨by decide, pop_response_header false false [[65]] [] [1, 65] (by decide)⟩

/-! ## The per-connection protocol state machine (`client.on('data')`) -/

/-- The value of the per-connection `state` variable (`server.js` line 127
and its assignments). -/
inductive SessionState where
  | start
  | push
  | pop
  | done
  | disconnect
deriving DecidableEq, Repr

/-- The per-connection mutable variables initialised at accept time
(`server.js` lines 127-131). `payloadBytesRead` is an `Int` because the JS
expression `buffer.length - 1` can be negative. -/
structure Session where
  state : SessionState
  payloadBytesRead : Int
  payloadLength : Nat
  payloadList : List (List Byte)
  exitLoop : Bool
deriving DecidableEq, Repr

/-- The variables as initialised at accept (`server.js` lines 127-131). -/
def initSession : Session :=
  { state := .start, payloadBytesRead := 0, payloadLength := 0,
    payloadList := [], exitLoop := false }

/-- Observable outcome of one `data` event: the updated session variables,
the updated shared stack, and the list of buffers written to this client
during the event (each `client.end(buf)` call contributes one). -/
structure DataOutcome where
  session : Session
  gLIFO : List Payload
  sent : List (List Byte)
deriving DecidableEq, Repr

/-- The `client.on('data')` handler (`server.js` lines 175-287).
`myRecord` is `gClients[myUUID]` at event time (`none` when the record was
deleted by the `end`/`timeout`/`error` handler, in which case the very first
statement `gClients[myUUID].disconnect` throws a TypeError).
A blocking `checkStackEmpty`/`checkStackFull` whose condition is not yet met
is left as a pending retry loop: the session and stack are unchanged and
nothing is sent during this event. -/
def onData (gKillMe : Bool) (maxStackSize : Nat) (myRecord : Option ClientRecord)
    (sess : Session) (gLIFO : List Payload) (data : List Byte) :
    Except JSError DataOutcome :=
  match myRecord with
  | none => .error .typeError
  | some rec =>
    let s0 : Session := if rec.disconnect then { sess with state := .disconnect } else sess
    let afterBranch : Session × List Payload × List (List Byte) :=
      if s0.state = .start ∧ (data.headD 0) &&& 0x80 ≠ 0 then
        -- pop request: transition to 'pop' and run the checkStackEmpty loop
        let s1 := { s0 with state := .pop }
        match checkStackEmpty gKillMe s1.exitLoop gLIFO with
        | .popped gLIFO2 response => (s1, gLIFO2, [response])
        | .abandoned => (s1, gLIFO, [])
        | .waiting => (s1, gLIFO, [])
      else if s0.state = .push then
        -- serialized push continuation: the WHOLE buffer is accumulated
        let s1 := { s0 with
          payloadList := s0.payloadList ++ [data],
          payloadBytesRead := s0.payloadBytesRead + data.length }
        if s1.payloadBytesRead ≥ (s1.payloadLength : Int) then
          ({ s1 with state := .done }, gLIFO, [])
        else
          (s1, gLIFO, [])
      else if s0.state = .start then
        -- push setup: length from the header's low 7 bits,
        -- buffer.slice(1, payloadLength+1) is the first payload fragment
        let payloadLength := (data.headD 0) &&& 0x7F
        let s1 := { s0 with
          state := .push,
          payloadLength := payloadLength,
          payloadList := s0.payloadList ++ [(data.drop 1).take payloadLength],
          payloadBytesRead := (data.length : Int) - 1 }
        if s1.payloadBytesRead ≥ (payloadLength : Int) then
          ({ s1 with state := .done }, gLIFO, [])
        else
          (s1, gLIFO, [])
      else if s0.state = .disconnect then
        (s0, gLIFO, [])
      else
        -- unknown state: logged and ignored
        (s0, gLIFO, [])
    let s2 := afterBranch.1
    let stack2 := afterBranch.2.1
    let sent2 := afterBranch.2.2
    if s2.state = .done then
      let combinedPayload := s2.payloadList.flatten
      match checkStackFull gKillMe s2.exitLoop maxStackSize stack2 combinedPayload with
      | .pushed gLIFO3 response => .ok ⟨s2, gLIFO3, sent2 ++ [response]⟩
      | .abandoned => .ok ⟨s2, stack2, sent2⟩
      | .waiting => .ok ⟨s2, stack2, sent2⟩
    else
      .ok ⟨s2, stack2, sent2⟩

/-- Feed a sequence of `data` events (transport deliveries) through
`onData`, accumulating everything sent to the client. -/
def runDeliveries (gKillMe : Bool) (maxStackSize : Nat) (myRecord : Option ClientRecord)
    (sess : Session) (gLIFO : List Payload) :
    List (List Byte) → Except JSError DataOutcome
  | [] => .ok ⟨sess, gLIFO, []⟩
  | d :: ds =>
    match onData gKillMe maxStackSize myRecord sess gLIFO d with
    | .error e => .error e
    | .ok out =>
      match runDeliveries gKillMe maxStackSize myRecord out.session out.gLIFO ds with
      | .error e => .error e
      | .ok out2 => .ok ⟨out2.session, out2.gLIFO, out.sent ++ out2.sent⟩

theorem runDeliveries_cons {gKillMe : Bool} {maxStackSize : Nat}
    {myRecord : Option ClientRecord} {sess : Session} {gLIFO : List Payload}
    {d : List Byte} {ds : List (List Byte)} {out out2 : DataOutcome}
    (h1 : onData gKillMe maxStackSize myRecord sess gLIFO d = .ok out)
    (h2 : runDeliveries gKillMe maxStackSize myRecord out.session out.gLIFO ds = .ok out2) :
    runDeliveries gKillMe maxStackSize myRecord sess gLIFO (d :: ds) =
      .ok ⟨out2.session, out2.gLIFO, out.sent ++ out2.sent⟩ := by
  simp only [runDeliveries, h1, h2]

theorem runDeliveries_nil {gKillMe : Bool} {maxStackSize : Nat}
    {myRecord : Option ClientRecord} {sess : Session} {gLIFO : List Payload} :
    runDeliveries gKillMe maxStackSize myRecord sess gLIFO [] = .ok ⟨sess, gLIFO, []⟩ :=
  rfl

section MaskLemmas

theorem and127_of_le {L : Nat} (h : L ≤ 127) : L &&& 0x7F = L := by
  have h2 : (2 : Nat) ^ 7 - 1 = 127 := by norm_num
  have h3 := Nat.and_pow_two_sub_one_of_lt_two_pow (x := L) (n := 7) (by omega)
  rw [h2] at h3
  exact h3

theorem and128_of_le {L : Nat} (h : L ≤ 127) : L &&& 0x80 = 0 := by
  have h7 : L.testBit 7 = false := Nat.testBit_lt_two_pow (by omega)
  have h3 := Nat.and_two_pow L 7
  rw [h7] at h3
  simpa using h3

end MaskLemmas

section OnDataLemmas

variable {maxStackSize : Nat} {rec : ClientRecord}

/-- Push continuation (`state == 'push'`, lines 224-230) that does not yet
reach the declared length: the whole buffer is appended and counted. -/
theorem onData_push_accum (hrec : rec.disconnect = false)
    {L k : Nat} {pl : List (List Byte)} {stack : List Payload} {d : List Byte}
    (hlt : k + d.length < L) :
    onData false maxStackSize (some rec)
      ⟨.push, (k : Int), L, pl, false⟩ stack d =
      .ok ⟨⟨.push, (k : Int) + d.length, L, pl ++ [d], false⟩, stack, []⟩ := by
  have hge : ¬ ((k : Int) + (d.length : Int) ≥ (L : Int)) := by omega
  have hge2 : ¬ (L ≤ k + d.length) := by omega
  simp [onData, hrec, hge, hge2]

/-- Push continuation that reaches (or overshoots) the declared length:
the whole buffer is appended, the state becomes `done` and, the stack having
room, the combined payload is pushed and `0x00` is sent. -/
theorem onData_push_finish (hrec : rec.disconnect = false)
    {L k : Nat} {pl : List (List Byte)} {stack : List Payload} {d : List Byte}
    (hge : L ≤ k + d.length) (hroom : stack.length < maxStackSize) :
    onData false maxStackSize (some rec)
      ⟨.push, (k : Int), L, pl, false⟩ stack d =
      .ok ⟨⟨.done, (k : Int) + d.length, L, pl ++ [d], false⟩,
        stack ++ [(pl ++ [d]).flatten], [[0x00]]⟩ := by
  have hge2 : ((k : Int) + (d.length : Int) ≥ (L : Int)) := by omega
  have hge3 : L ≤ k + d.length := hge
  simp [onData, hrec, hge2, hge3, checkStackFull, hroom]

/-- Push setup (`state == 'start'` with clear high bit, lines 231-250) when
the first delivery does not complete the payload: the declared length is the
header's low 7 bits, the first fragment is `buffer.slice(1, L+1)` and the
byte count is `buffer.length - 1`. -/
theorem onData_start_incomplete (hrec : rec.disconnect = false)
    {L : Nat} {stack : List Payload} {t : List Byte}
    (hL : L ≤ 127) (ht : t.length < L) :
    onData false maxStackSize (some rec) initSession stack (L :: t) =
      .ok ⟨⟨.push, (t.length : Int), L, [t], false⟩, stack, []⟩ := by
  have hbit : L &&& 0x80 = 0 := and128_of_le hL
  have hmask : L &&& 0x7F = L := and127_of_le hL
  have hge : ¬ (((L :: t).length : Int) - 1 ≥ (L : Int)) := by
    simp only [List.length_cons]
    omega
  have hge2 : ¬ (L ≤ t.length) := by omega
  have htake : t.take L = t := List.take_of_length_le (le_of_lt ht)
  simp [onData, hrec, initSession, hbit, hmask, hge, hge2, htake]

/-- Push setup when the first delivery already contains at least the whole
payload: only the first `L` bytes after the header are kept
(`buffer.slice(1, L+1)`), the state reaches `done` and, the stack having
room, the payload is pushed and `0x00` is sent. -/
theorem onData_start_finish (hrec : rec.disconnect = false)
    {L : Nat} {stack : List Payload} {t : List Byte}
    (hL : L ≤ 127) (ht : L ≤ t.length) (hroom : stack.length < maxStackSize) :
    onData false maxStackSize (some rec) initSession stack (L :: t) =
      .ok ⟨⟨.done, (t.length : Int), L, [t.take L], false⟩,
        stack ++ [t.take L], [[0x00]]⟩ := by
  have hbit : L &&& 0x80 = 0 := and128_of_le hL
  have hmask : L &&& 0x7F = L := and127_of_le hL
  have hge : (((L :: t).length : Int) - 1 ≥ (L : Int)) := by
    simp only [List.length_cons]
    omega
  simp [onData, hrec, initSession, hbit, hmask, hge, ht, checkStackFull, hroom]

/-- Any delivery while the session is in `disconnect` (and the registry
record is intact but not flagged) is ignored completely. -/
theorem onData_disconnect_ignores (killMe : Bool) (maxStackSize : Nat)
    (rec : ClientRecord) (hrec : rec.disconnect = false)
    (sess : Session) (hs : sess.state = .disconnect)
    (stack : List Payload) (d : List Byte) :
    onData killMe maxStackSize (some rec) sess stack d = .ok ⟨sess, stack, []⟩ := by
  simp [onData, hrec, hs]

end OnDataLemmas

/-- Processing a nonempty sequence of nonempty continuation deliveries whose
bytes bring the running count from `k` exactly to the declared length `L`:
every delivery is appended, the last one completes the push (one `0x00`)
and the stored payload is everything accumulated. -/
theorem runDeliveries_accum (maxStackSize : Nat) (rec : ClientRecord)
    (hrec : rec.disconnect = false) (L : Nat) :
    ∀ (cs : List (List Byte)) (k : Nat) (pl : List (List Byte)) (stack : List Payload),
      (∀ c ∈ cs, c ≠ []) → cs ≠ [] →
      k + cs.flatten.length = L → k < L → stack.length < maxStackSize →
      runDeliveries false maxStackSize (some rec)
          ⟨.push, (k : Int), L, pl, false⟩ stack cs =
        .ok ⟨⟨.done, (L : Int), L, pl ++ cs, false⟩,
          stack ++ [pl.flatten ++ cs.flatten], [[0x00]]⟩ := by
  intro cs
  induction cs with
  | nil =>
    intro k pl stack _ hne _ _ _
    exact absurd rfl hne
  | cons c cs ih =>
    intro k pl stack hnonempty _ hsum hk hroom
    cases cs with
    | nil =>
      have hlen : k + c.length = L := by simpa using hsum
      have hcast : (k : Int) + (c.length : Int) = (L : Int) := by omega
      have h1 := @onData_push_finish maxStackSize rec hrec L k pl stack c (by omega) hroom
      rw [runDeliveries_cons h1 runDeliveries_nil]
      simp [hcast]
    | cons c2 cs2 =>
      have hc2 : c2 ≠ [] := hnonempty c2 (by simp)
      have hlen2 : 0 < (c2 :: cs2).flatten.length := by
        have h0 : 0 < c2.length := List.length_pos.mpr hc2
        simp only [List.flatten_cons, List.length_append]
        omega
      have hlt : k + c.length < L := by
        simp only [List.flatten_cons, List.length_append] at hsum hlen2 ⊢
        omega
      have h1 := @onData_push_accum maxStackSize rec hrec L k pl stack c hlt
      have h2 := ih (k + c.length) (pl ++ [c]) stack
        (fun x hx => hnonempty x (by simp [hx])) (by simp)
        (by simp only [List.flatten_cons, List.length_append] at hsum ⊢; omega)
        hlt hroom
      push_cast at h2
      rw [runDeliveries_cons h1 h2]
      simp

/-- Claim C3: for every payload length `L ≤ 127` and every partition of the
request bytes (header `L` then exactly `L` payload bytes) into nonempty
deliveries, the client is sent exactly one `0x00` byte, exactly the payload
is appended to the stack, and a subsequent pop returns exactly those `L`
payload bytes. -/
theorem framing_round_trip (maxStackSize : Nat) (rec : ClientRecord) (L : Nat)
    (p : Payload) (chunks : List (List Byte)) (stack : List Payload)
    (hrec : rec.disconnect = false) (hL : L ≤ 127) (hp : p.length = L)
    (hflat : chunks.flatten = L :: p) (hchunks : ∀ c ∈ chunks, c ≠ [])
    (hroom : stack.length < maxStackSize) :
    (∃ sess2, runDeliveries false maxStackSize (some rec) initSession stack chunks =
      .ok ⟨sess2, stack ++ [p], [[0x00]]⟩) ∧
    checkStackEmpty false false (stack ++ [p]) =
      .popped stack ((p.length &&& 0x7F) :: p) := by
  refine ⟨?_, checkStackEmpty_append stack p⟩
  cases chunks with
  | nil => simp at hflat
  | cons c cs =>
    cases c with
    | nil => exact absurd rfl (hchunks [] (by simp))
    | cons hd t =>
      have hflat2 : hd = L ∧ t ++ cs.flatten = p := by
        simpa using hflat
      have heq : L = hd := hflat2.1.symm
      have hts : t ++ cs.flatten = p := hflat2.2
      subst heq
      have hlensum : t.length + cs.flatten.length = L := by
        have hl := congrArg List.length hts
        simpa [hp] using hl
      by_cases hcase : t.length < L
      · -- the first delivery does not complete the payload
        have hcs : cs ≠ [] := by
          intro h
          subst h
          simp at hts
          subst hts
          omega
        have h1 := @onData_start_incomplete maxStackSize rec hrec L stack t hL hcase
        have h2 := runDeliveries_accum maxStackSize rec hrec L cs t.length [t] stack
          (fun x hx => hchunks x (by simp [hx])) hcs (by omega) hcase hroom
        refine ⟨⟨.done, (L : Int), L, [t] ++ cs, false⟩, ?_⟩
        rw [runDeliveries_cons h1 h2]
        simp [hts]
      · -- the first delivery contains the whole payload, so it is the only one
        have hcs : cs = [] := by
          cases cs with
          | nil => rfl
          | cons c2 cs2 =>
            have hc2 : c2 ≠ [] := hchunks c2 (by simp)
            have h0 : 0 < c2.length := List.length_pos.mpr hc2
            simp only [List.flatten_cons, List.length_append] at hlensum
            omega
        subst hcs
        simp only [List.flatten_nil, List.append_nil] at hts
        subst hts
        have h1 := @onData_start_finish maxStackSize rec hrec L stack t hL (by omega) hroom
        refine ⟨⟨.done, (t.length : Int), L, [t.take L], false⟩, ?_⟩
        rw [runDeliveries_cons h1 runDeliveries_nil]
        have htake : t.take L = t := List.take_of_length_le (by omega)
        simp [htake]

theorem framing_round_trip_spot :
    ((⟨0, 1, false⟩ : ClientRecord).disconnect = false ∧ 2 ≤ 127 ∧
     ([65, 66] : Payload).length = 2 ∧
     ([[2, 65], [66]] : List (List Byte)).flatten = 2 :: [65, 66] ∧
     (∀ c ∈ ([[2, 65], [66]] : List (List Byte)), c ≠ []) ∧
     ([] : List Payload).length < 1) ∧
    ((∃ sess2, runDeliveries false 1 (some ⟨0, 1, false⟩) initSession [] [[2, 65], [66]] =
      .ok ⟨sess2, [] ++ [[65, 66]], [[0x00]]⟩) ∧
     checkStackEmpty false false ([] ++ [[65, 66]]) =
      .popped [] ((([65, 66] : Payload).length &&& 0x7F) :: [65, 66])) :=
  ⟨⟨rfl, by decide, by decide, by decide, by decide, by decide⟩,
    framing_round_trip 1 ⟨0, 1, false⟩ 2 [65, 66] [[2, 65], [66]] []
      rfl (by decide) (by decide) (by decide) (by decide) (by decide)⟩

/-- Claim C4 counterexample: a push with declared length `L = 1` whose
payload continuation delivery carries one excess byte (`[0x41, 0x42]` after
a bare header delivery `[0x01]`) stores the payload `[0x41, 0x42]` on the
stack - the excess byte `0x42` is appended to the stored payload rather
than dropped, so the stored payload is not the first `L` bytes `[0x41]`. -/
theorem trailing_excess_counterexample :
    runDeliveries false 10 (some ⟨0, 1, false⟩) initSession [] [[0x01], [0x41, 0x42]] =
      .ok ⟨⟨.done, 2, 1, [[], [0x41, 0x42]], false⟩, [[0x41, 0x42]], [[0x00]]⟩ ∧
    ([0x41, 0x42] : Payload) ≠ [0x41] :=
  ⟨rfl, by decide⟩

/-- Claim C4 (amended): for a push with declared length `L`, excess bytes
arriving in the SAME delivery as the header are silently dropped
(`buffer.slice(1, L+1)` keeps only the first `L` payload bytes, a single
`0x00` is sent, and the excess is not reprocessed as a new request), but
excess bytes arriving in a LATER delivery while the payload is still
accumulating are appended wholesale to the stored payload - the delivery is
accumulated in full, not truncated at `L`. -/
theorem trailing_excess_amended (maxStackSize : Nat) (rec : ClientRecord)
    (L : Nat) (p ex : List Byte) (k : Nat) (pl : List (List Byte)) (b : List Byte)
    (stack : List Payload)
    (hrec : rec.disconnect = false) (hL : L ≤ 127) (hp : p.length = L)
    (hroom : stack.length < maxStackSize) (_hk : k < L) (hkb : L ≤ k + b.length) :
    onData false maxStackSize (some rec) initSession stack (L :: (p ++ ex)) =
      .ok ⟨⟨.done, ((p ++ ex).length : Int), L, [p], false⟩, stack ++ [p], [[0x00]]⟩ ∧
    onData false maxStackSize (some rec) ⟨.push, (k : Int), L, pl, false⟩ stack b =
      .ok ⟨⟨.done, (k : Int) + b.length, L, pl ++ [b], false⟩,
        stack ++ [pl.flatten ++ b], [[0x00]]⟩ := by
  constructor
  · have h := @onData_start_finish maxStackSize rec hrec L stack (p ++ ex)
      hL (by simp only [List.length_append]; omega) hroom
    have htake : (p ++ ex).take L = p := by
      rw [← hp]
      exact List.take_left p ex
    rw [h, htake]
  · have h := @onData_push_finish maxStackSize rec hrec L k pl stack b hkb hroom
    rw [h]
    simp

theorem trailing_excess_amended_spot :
    ((⟨0, 1, false⟩ : ClientRecord).disconnect = false ∧ 1 ≤ 127 ∧
     ([0x41] : Payload).length = 1 ∧ ([] : List Payload).length < 10 ∧
     0 < 1 ∧ 1 ≤ 0 + ([0x41, 0x42] : List Byte).length) ∧
    (onData false 10 (some ⟨0, 1, false⟩) initSession [] (1 :: ([0x41] ++ [0x42])) =
      .ok ⟨⟨.done, ((([0x41] : List Byte) ++ [0x42]).length : Int), 1, [[0x41]], false⟩,
        [] ++ [[0x41]], [[0x00]]⟩ ∧
     onData false 10 (some ⟨0, 1, false⟩) ⟨.push, ((0 : Nat) : Int), 1, [[]], false⟩ []
         [0x41, 0x42] =
      .ok ⟨⟨.done, ((0 : Nat) : Int) + ([0x41, 0x42] : List Byte).length, 1,
          [[]] ++ [[0x41, 0x42]], false⟩,
        [] ++ [([[]] : List (List Byte)).flatten ++ [0x41, 0x42]], [[0x00]]⟩) :=
  ⟨⟨rfl, by decide, by decide, by decide, by decide, by decide⟩,
    trailing_excess_amended 10 ⟨0, 1, false⟩ 1 [0x41] [0x42] 0 [[]] [0x41, 0x42] []
      rfl (by decide) (by decide) (by decide) (by decide) (by decide)⟩

/-! ## Process-level shutdown handling -/

/-- The process-level flags touched by `shutdown()` (`server.js` lines
27 and 408-424): the `gKillMe` halt flag and whether each of the two
listeners is still accepting connections. -/
structure ServerState where
  gKillMe : Bool
  appServerOpen : Bool
  diagnosticServerOpen : Bool
deriving DecidableEq, Repr

/-- `shutdown()` (`server.js` lines 408-424): sets `gKillMe = true` then
closes both listeners. -/
def shutdown (_st : ServerState) : ServerState :=
  { gKillMe := true, appServerOpen := false, diagnosticServerOpen := false }

/-- The `process.on('uncaughtException')` handler (`server.js` lines
434-438): logs the fault and calls `shutdown()`. -/
def uncaughtException (st : ServerState) : ServerState := shutdown st

/-- Claim C7 is refuted by the code: when a `data` event is delivered after
the connection's `gClients` record was removed (the `timeout` handler
deletes the record without closing the socket), the handler's first
statement `gClients[myUUID].disconnect` reads a property of `undefined` and
throws a TypeError; the uncaughtException handler then runs `shutdown()`,
setting the halt flag and closing both listeners, so the fault is not
contained to the connection. -/
theorem data_after_removal_throws :
    onData false 10 none initSession [] [0x41] = .error .typeError ∧
    uncaughtException ⟨false, true, true⟩ = ⟨true, false, false⟩ :=
  ⟨rfl, rfl⟩

/-! ## Connection registry, `disconnectOldClient` and admission control -/

/-- The global `gClients` object: uuid keys mapped to records, listed in
insertion order (JS object string keys enumerate in insertion order). -/
abbrev Registry := List (String × ClientRecord)

/-- One step of the stable sort used to model
`Object.keys(gClients).sort(function(a,b){...})` with the comparator
`gClients[a].timestamp - gClients[b].timestamp`: a later element is placed
after every earlier element whose timestamp is less than or equal to its
own, so insertion order is preserved among equal timestamps. -/
def insertByTimestamp (x : String × ClientRecord) : Registry → Registry
  | [] => [x]
  | y :: ys =>
    if y.2.timestamp ≤ x.2.timestamp then y :: insertByTimestamp x ys
    else x :: y :: ys

/-- The sorted key sequence of `disconnectOldClient` (`server.js` line 89),
paired with each key's record: ascending by timestamp, stable. -/
def sortByTimestamp (gClients : Registry) : Registry :=
  gClients.foldl (fun acc x => insertByTimestamp x acc) []

/-- Leftmost entry with minimal timestamp: the specification of the head of
the stable sort, proved equal to it in `head_sortByTimestamp`. -/
def selectMin : Registry → Option (String × ClientRecord)
  | [] => none
  | x :: xs =>
    match selectMin xs with
    | none => some x
    | some y => if x.2.timestamp ≤ y.2.timestamp then some x else some y

/-- The result object of `disconnectOldClient` (`server.js` lines 83-86). -/
structure DisconnectResult where
  disconnect : Bool
  uuid : String
deriving DecidableEq, Repr

/-- `(now - earliestDate) / 1000` (`server.js` line 95), in exact rational
arithmetic. -/
def elapsedSeconds (now earliestDate : Nat) : ℚ :=
  ((now : ℚ) - (earliestDate : ℚ)) / 1000

/-- `disconnectOldClient` (`server.js` lines 82-104): sort all of `gClients`
by timestamp, take `sorted[0]`, and flag it for disconnect when its age
exceeds `config.staleConnectionPeriodSeconds`. When `gClients` is empty,
`sorted[0]` is `undefined` and `gClients[undefined].timestamp` throws. -/
def disconnectOldClient (gClients : Registry) (now : Nat)
    (staleConnectionPeriodSeconds : ℚ) : Except JSError DisconnectResult :=
  match (sortByTimestamp gClients).head? with
  | none => .error .typeError
  | some (earliestUUID, earliestRec) =>
    if elapsedSeconds now earliestRec.timestamp > staleConnectionPeriodSeconds then
      .ok ⟨true, earliestUUID⟩
    else
      .ok ⟨false, ""⟩

/-- Outcome of the `appServer.getConnections` callback (`server.js` lines
137-159) for a new connection. -/
inductive Admission where
  | proceed
  | evict (uuid : String)
  | reject
deriving DecidableEq, Repr

/-- The busy byte sent to a rejected connection (`server.js` line 155). -/
def rejectionBytes : List Byte := [0xFF]

/-- The admission decision in the `getConnections` callback (`server.js`
lines 142-158): on overflow (`connections > config.maxConnections`), either
evict the client flagged by `disconnectOldClient`, or reject the new one
(send `0xFF`, set its session state to `disconnect`). -/
def admissionCheck (connections maxConnections : Nat) (gClients : Registry)
    (now : Nat) (staleConnectionPeriodSeconds : ℚ) : Except JSError Admission :=
  if connections > maxConnections then
    match disconnectOldClient gClients now staleConnectionPeriodSeconds with
    | .error e => .error e
    | .ok r => if r.disconnect then .ok (.evict r.uuid) else .ok .reject
  else
    .ok .proceed

/-- Timestamp of `sorted[0]`: the age reference used by the staleness
test. -/
def oldestTimestamp (gClients : Registry) : Option Nat :=
  (sortByTimestamp gClients).head?.map (fun pr => pr.2.timestamp)

section SortLemmas

/-- Folding step for the head of the stable sort. -/
def minCombine (acc : Option (String × ClientRecord)) (x : String × ClientRecord) :
    Option (String × ClientRecord) :=
  match acc with
  | none => some x
  | some y => if y.2.timestamp ≤ x.2.timestamp then some y else some x

theorem head_insertByTimestamp (x : String × ClientRecord) (l : Registry) :
    (insertByTimestamp x l).head? = minCombine l.head? x := by
  cases l with
  | nil => rfl
  | cons y ys =>
    by_cases h : y.2.timestamp ≤ x.2.timestamp <;> simp [insertByTimestamp, minCombine, h]

theorem head_foldl_insert :
    ∀ (l : Registry) (acc : Registry),
      (l.foldl (fun a x => insertByTimestamp x a) acc).head? = l.foldl minCombine acc.head?
  | [], _ => rfl
  | x :: xs, acc => by
    rw [List.foldl_cons, List.foldl_cons, head_foldl_insert xs (insertByTimestamp x acc),
      head_insertByTimestamp]

theorem foldl_minCombine_some :
    ∀ (l : Registry) (y : String × ClientRecord),
      l.foldl minCombine (some y) =
        match selectMin l with
        | none => some y
        | some z => if y.2.timestamp ≤ z.2.timestamp then some y else some z
  | [], y => by simp [selectMin]
  | x :: xs, y => by
    rw [List.foldl_cons]
    by_cases h1 : y.2.timestamp ≤ x.2.timestamp
    · rw [show minCombine (some y) x = some y from by simp [minCombine, h1]]
      rw [foldl_minCombine_some xs y]
      cases hz : selectMin xs with
      | none => simp [selectMin, hz, h1]
      | some z =>
        simp only [selectMin, hz]
        by_cases h2 : x.2.timestamp ≤ z.2.timestamp
        · have h3 : y.2.timestamp ≤ z.2.timestamp := le_trans h1 h2
          simp [h2, h1, h3]
        · simp [h2]
    · rw [show minCombine (some y) x = some x from by simp [minCombine, h1]]
      rw [foldl_minCombine_some xs x]
      cases hz : selectMin xs with
      | none => simp [selectMin, hz, h1]
      | some z =>
        simp only [selectMin, hz]
        by_cases h2 : x.2.timestamp ≤ z.2.timestamp
        · simp [h2, h1]
        · have h3 : ¬ y.2.timestamp ≤ z.2.timestamp := by omega
          simp [h2, h3]

theorem foldl_minCombine_none (l : Registry) :
    l.foldl minCombine none = selectMin l := by
  cases l with
  | nil => rfl
  | cons x xs =>
    rw [List.foldl_cons]
    show xs.foldl minCombine (some x) = selectMin (x :: xs)
    rw [foldl_minCombine_some xs x]
    cases hz : selectMin xs <;> simp [selectMin, hz]

/-- The head of the stable sort is the leftmost minimal-timestamp entry. -/
theorem head_sortByTimestamp (l : Registry) :
    (sortByTimestamp l).head? = selectMin l := by
  rw [sortByTimestamp, head_foldl_insert l []]
  exact foldl_minCombine_none l

theorem selectMin_mem : ∀ {l : Registry} {x : String × ClientRecord},
    selectMin l = some x → x ∈ l
  | [], x, h => by simp [selectMin] at h
  | y :: ys, x, h => by
    simp only [selectMin] at h
    cases hz : selectMin ys with
    | none =>
      simp only [hz] at h
      injection h with h
      subst h
      exact List.mem_cons_self y ys
    | some z =>
      simp only [hz] at h
      by_cases hc : y.2.timestamp ≤ z.2.timestamp
      · rw [if_pos hc] at h
        injection h with h
        subst h
        exact List.mem_cons_self y ys
      · rw [if_neg hc] at h
        injection h with h
        subst h
        exact List.mem_cons_of_mem y (selectMin_mem hz)

theorem selectMin_isSome : ∀ (l : Registry), l ≠ [] →
    ∃ x, selectMin l = some x
  | [], h => absurd rfl h
  | y :: ys, _ => by
    simp only [selectMin]
    cases hz : selectMin ys with
    | none => exact ⟨y, rfl⟩
    | some z =>
      by_cases hc : y.2.timestamp ≤ z.2.timestamp
      · exact ⟨y, by simp [hc]⟩
      · exact ⟨z, by simp [hc]⟩

theorem selectMin_le : ∀ {l : Registry} {x : String × ClientRecord},
    selectMin l = some x → ∀ pr ∈ l, x.2.timestamp ≤ pr.2.timestamp
  | [], x, h => by simp [selectMin] at h
  | y :: ys, x, h => by
    intro pr hpr
    simp only [selectMin] at h
    cases hz : selectMin ys with
    | none =>
      have hys : ys = [] := by
        cases ys with
        | nil => rfl
        | cons a as =>
          simp only [selectMin] at hz
          cases h2 : selectMin as with
          | none =>
            simp only [h2] at hz
            cases hz
          | some w =>
            simp only [h2] at hz
            split at hz <;> cases hz
      subst hys
      simp only [hz] at h
      injection h with h
      subst h
      simp only [List.mem_singleton] at hpr
      subst hpr
      exact le_refl _
    | some z =>
      simp only [hz] at h
      rcases List.mem_cons.mp hpr with hpr2 | hmem
      · rw [hpr2]
        by_cases hc : y.2.timestamp ≤ z.2.timestamp
        · rw [if_pos hc] at h
          injection h with h
          subst h
          exact le_refl _
        · rw [if_neg hc] at h
          injection h with h
          subst h
          omega
      · by_cases hc : y.2.timestamp ≤ z.2.timestamp
        · rw [if_pos hc] at h
          injection h with h
          subst h
          exact le_trans hc (selectMin_le hz pr hmem)
        · rw [if_neg hc] at h
          injection h with h
          subst h
          exact selectMin_le hz pr hmem

/-- Appending an entry whose timestamp is at least every existing one does
not change the leftmost minimum. -/
theorem selectMin_append_last (others : Registry) (nid : String) (nrec : ClientRecord)
    (hne : others ≠ [])
    (hmono : ∀ pr ∈ others, pr.2.timestamp ≤ nrec.timestamp) :
    selectMin (others ++ [(nid, nrec)]) = selectMin others := by
  induction others with
  | nil => exact absurd rfl hne
  | cons y ys ih =>
    cases ys with
    | nil =>
      have hy := hmono y (List.mem_cons_self y [])
      simp [selectMin, hy]
    | cons z zs =>
      have ih2 := ih (by simp)
        (fun pr hpr => hmono pr (List.mem_cons_of_mem y hpr))
      have e1 : selectMin ((y :: z :: zs) ++ [(nid, nrec)]) =
          (match selectMin ((z :: zs) ++ [(nid, nrec)]) with
            | none => some y
            | some w => if y.2.timestamp ≤ w.2.timestamp then some y else some w) := rfl
      have e2 : selectMin (y :: z :: zs) =
          (match selectMin (z :: zs) with
            | none => some y
            | some w => if y.2.timestamp ≤ w.2.timestamp then some y else some w) := rfl
      rw [e1, e2, ih2]

end SortLemmas

section AdmissionLemmas

theorem disconnectOldClient_eq {g : Registry} {u0 : String} {r0 : ClientRecord}
    (hhead : selectMin g = some (u0, r0)) (now : Nat) (stale : ℚ) :
    disconnectOldClient g now stale =
      if elapsedSeconds now r0.timestamp > stale then .ok ⟨true, u0⟩
      else .ok ⟨false, ""⟩ := by
  unfold disconnectOldClient
  rw [head_sortByTimestamp, hhead]

theorem admissionCheck_overflow {g : Registry} {u0 : String} {r0 : ClientRecord}
    (hhead : selectMin g = some (u0, r0)) (maxConnections : Nat) (now : Nat) (stale : ℚ) :
    admissionCheck (maxConnections + 1) maxConnections g now stale =
      if elapsedSeconds now r0.timestamp > stale then .ok (.evict u0)
      else .ok .reject := by
  unfold admissionCheck
  rw [if_pos (Nat.lt_succ_self maxConnections), disconnectOldClient_eq hhead now stale]
  by_cases hc : elapsedSeconds now r0.timestamp > stale <;> simp [hc]

end AdmissionLemmas

/-- Claim C5: with `maxConnections = m`, a live count of `m + 1` and the new
connection registered last behind at least one earlier connection, the
admission decision is `reject` - the single busy byte `0xFF` is sent and
the session enters the `disconnect` state, in which every delivery is
ignored without protocol processing - if and only if the oldest
connection's age `elapsedSeconds now t0` does not exceed
`staleConnectionPeriodSeconds`; otherwise (strictly older than the
threshold) the decision is to evict the oldest connection and the new
connection proceeds. -/
theorem admission_boundary (maxConnections : Nat) (others : Registry)
    (nid : String) (nrec : ClientRecord) (now : Nat) (stale : ℚ) (t0 : Nat)
    (hne : others ≠ []) (hmono : ∀ pr ∈ others, pr.2.timestamp ≤ nrec.timestamp)
    (ht0 : oldestTimestamp (others ++ [(nid, nrec)]) = some t0) :
    (admissionCheck (maxConnections + 1) maxConnections (others ++ [(nid, nrec)])
        now stale = .ok .reject ↔ elapsedSeconds now t0 ≤ stale) ∧
    ((∃ u, admissionCheck (maxConnections + 1) maxConnections (others ++ [(nid, nrec)])
        now stale = .ok (.evict u)) ↔ stale < elapsedSeconds now t0) ∧
    (stale < elapsedSeconds now t0 →
      ∃ u0 r0, (u0, r0) ∈ others ∧
        admissionCheck (maxConnections + 1) maxConnections (others ++ [(nid, nrec)])
          now stale = .ok (.evict u0)) ∧
    rejectionBytes = [0xFF] ∧
    (∀ (sess : Session) (r : ClientRecord) (st : List Payload) (buf : List Byte)
        (km : Bool) (mx : Nat), sess.state = .disconnect → r.disconnect = false →
      onData km mx (some r) sess st buf = .ok ⟨sess, st, []⟩) := by
  have hsel := selectMin_append_last others nid nrec hne hmono
  obtain ⟨x, hx0⟩ := selectMin_isSome others hne
  obtain ⟨u0, r0⟩ := x
  have hx : selectMin (others ++ [(nid, nrec)]) = some (u0, r0) := by
    rw [hsel]
    exact hx0
  have ht0m : r0.timestamp = t0 := by
    unfold oldestTimestamp at ht0
    rw [head_sortByTimestamp, hx] at ht0
    simpa using ht0
  have hA := admissionCheck_overflow hx maxConnections now stale
  rw [ht0m] at hA
  refine ⟨?_, ?_, ?_, rfl, ?_⟩
  · constructor
    · intro h
      by_contra hc
      rw [not_le] at hc
      rw [hA, if_pos hc] at h
      simp at h
    · intro h
      have hc : ¬ (elapsedSeconds now t0 > stale) := not_lt.mpr h
      rw [hA, if_neg hc]
  · constructor
    · rintro ⟨u, hu⟩
      by_contra hc
      rw [not_lt] at hc
      have hc2 : ¬ (elapsedSeconds now t0 > stale) := not_lt.mpr hc
      rw [hA, if_neg hc2] at hu
      simp at hu
    · intro h
      exact ⟨u0, by rw [hA, if_pos h]⟩
  · intro h
    exact ⟨u0, r0, selectMin_mem hx0, by rw [hA, if_pos h]⟩
  · intro sess r st buf km mx hs hr
    exact onData_disconnect_ignores km mx r hr sess hs st buf

theorem admission_boundary_spot :
    (([(("a" : String), (⟨0, 1, false⟩ : ClientRecord))] : Registry) ≠ [] ∧
     (∀ pr ∈ ([(("a" : String), (⟨0, 1, false⟩ : ClientRecord))] : Registry),
       pr.2.timestamp ≤ (⟨5, 2, false⟩ : ClientRecord).timestamp) ∧
     oldestTimestamp ([("a", ⟨0, 1, false⟩)] ++ [("b", ⟨5, 2, false⟩)]) = some 0) ∧
    ((admissionCheck (1 + 1) 1 ([("a", ⟨0, 1, false⟩)] ++ [("b", ⟨5, 2, false⟩)])
        3000 1 = .ok .reject ↔ elapsedSeconds 3000 0 ≤ 1) ∧
     ((∃ u, admissionCheck (1 + 1) 1 ([("a", ⟨0, 1, false⟩)] ++ [("b", ⟨5, 2, false⟩)])
        3000 1 = .ok (.evict u)) ↔ 1 < elapsedSeconds 3000 0) ∧
     (1 < elapsedSeconds 3000 0 →
      ∃ u0 r0, (u0, r0) ∈ ([(("a" : String), (⟨0, 1, false⟩ : ClientRecord))] : Registry) ∧
        admissionCheck (1 + 1) 1 ([("a", ⟨0, 1, false⟩)] ++ [("b", ⟨5, 2, false⟩)])
          3000 1 = .ok (.evict u0)) ∧
     rejectionBytes = [0xFF] ∧
     (∀ (sess : Session) (r : ClientRecord) (st : List Payload) (buf : List Byte)
        (km : Bool) (mx : Nat), sess.state = .disconnect → r.disconnect = false →
      onData km mx (some r) sess st buf = .ok ⟨sess, st, []⟩)) :=
  ⟨⟨by decide, by decide, by decide⟩,
    admission_boundary 1 [("a", ⟨0, 1, false⟩)] "b" ⟨5, 2, false⟩ 3000 1 0
      (by decide) (by decide) (by decide)⟩

/-- Claim C6 counterexample: when the registry contains only the newly
accepted connection (every other record already removed) and the staleness
test passes, `disconnectOldClient` selects the new connection itself, and
the overflow branch of the admission callback therefore evicts the new
connection as its own eviction candidate - contradicting the claim that
the candidate scan excludes the new connection. -/
theorem eviction_candidate_counterexample :
    admissionCheck 2 1 [("u1", ⟨0, 1, false⟩)] 2000 1 = .ok (.evict "u1") ∧
    disconnectOldClient [("u1", ⟨0, 1, false⟩)] 2000 1 = .ok ⟨true, "u1"⟩ := by
  have hsel : selectMin [("u1", (⟨0, 1, false⟩ : ClientRecord))] =
      some ("u1", ⟨0, 1, false⟩) := rfl
  have helapsed : elapsedSeconds 2000 0 > 1 := by norm_num [elapsedSeconds]
  constructor
  · have h := admissionCheck_overflow hsel 1 2000 1
    rw [if_pos helapsed] at h
    exact h
  · have h := disconnectOldClient_eq hsel 2000 1
    rw [if_pos helapsed] at h
    exact h

/-- Claim C6 (amended): on a capacity overflow the eviction candidate is the
entry with minimum `admittedAt` timestamp among ALL live registry entries,
the newly accepted connection included (first-inserted wins ties). Whenever
at least one other connection is registered, each admitted no later than
the new one, that minimum lies among the others, so the new connection is
not chosen; but when the registry holds only the new connection it becomes
its own eviction candidate. -/
theorem eviction_candidate_amended (others : Registry) (nid : String)
    (nrec : ClientRecord) (now : Nat) (stale : ℚ)
    (hne : others ≠ []) (hmono : ∀ pr ∈ others, pr.2.timestamp ≤ nrec.timestamp) :
    ∃ u0 r0, (sortByTimestamp (others ++ [(nid, nrec)])).head? = some (u0, r0) ∧
      (u0, r0) ∈ others ∧
      (∀ pr ∈ others ++ [(nid, nrec)], r0.timestamp ≤ pr.2.timestamp) ∧
      (∀ u, disconnectOldClient (others ++ [(nid, nrec)]) now stale = .ok ⟨true, u⟩ →
        u = u0) := by
  have hsel := selectMin_append_last others nid nrec hne hmono
  obtain ⟨x, hx⟩ := selectMin_isSome others hne
  obtain ⟨u0, r0⟩ := x
  have hbig : selectMin (others ++ [(nid, nrec)]) = some (u0, r0) := by
    rw [hsel]
    exact hx
  refine ⟨u0, r0, ?_, selectMin_mem hx, selectMin_le hbig, ?_⟩
  · rw [head_sortByTimestamp]
    exact hbig
  · intro u hu
    rw [disconnectOldClient_eq hbig now stale] at hu
    by_cases hc : elapsedSeconds now r0.timestamp > stale
    · rw [if_pos hc] at hu
      injection hu with hu
      injection hu with h1 h2
      exact h2.symm
    · rw [if_neg hc] at hu
      injection hu with hu
      injection hu with h1 h2
      cases h1

theorem eviction_candidate_amended_spot :
    (([(("a" : String), (⟨0, 1, false⟩ : ClientRecord))] : Registry) ≠ [] ∧
     (∀ pr ∈ ([(("a" : String), (⟨0, 1, false⟩ : ClientRecord))] : Registry),
       pr.2.timestamp ≤ (⟨5, 2, false⟩ : ClientRecord).timestamp)) ∧
    (∃ u0 r0,
      (sortByTimestamp ([("a", ⟨0, 1, false⟩)] ++ [("b", ⟨5, 2, false⟩)])).head? =
        some (u0, r0) ∧
      (u0, r0) ∈ ([(("a" : String), (⟨0, 1, false⟩ : ClientRecord))] : Registry) ∧
      (∀ pr ∈ ([("a", ⟨0, 1, false⟩)] ++ [("b", ⟨5, 2, false⟩)] : Registry),
        r0.timestamp ≤ pr.2.timestamp) ∧
      (∀ u, disconnectOldClient ([("a", ⟨0, 1, false⟩)] ++ [("b", ⟨5, 2, false⟩)])
          7 3 = .ok ⟨true, u⟩ → u = u0)) :=
  ⟨⟨by decide, by decide⟩,
    eviction_candidate_amended [("a", ⟨0, 1, false⟩)] "b" ⟨5, 2, false⟩ 7 3
      (by decide) (by decide)⟩

/-! ## Blocked waiters and the halt flag -/

/-- The wire response carried by a pop attempt, if any. -/
def PopStep.response : PopStep → Option (List Byte)
  | .popped _ r => some r
  | _ => none

/-- The stack after a pop attempt, given the stack it observed. -/
def PopStep.stackAfter (observed : List Payload) : PopStep → List Payload
  | .popped s2 _ => s2
  | _ => observed

/-- The wire response carried by a push attempt, if any. -/
def PushStep.response : PushStep → Option (List Byte)
  | .pushed _ r => some r
  | _ => none

/-- The stack after a push attempt, given the stack it observed. -/
def PushStep.stackAfter (observed : List Payload) : PushStep → List Payload
  | .pushed s2 _ => s2
  | _ => observed

/-- A blocked pop: the `checkStackEmpty` closure reruns itself every
millisecond via `setTimeout`; each trace element is the `(gKillMe, gLIFO)`
pair it observes at one tick. The result is the first non-waiting attempt
(`none` while the waiter is still blocked at the end of the trace). -/
def popWaitTrace : List (Bool × List Payload) → Option PopStep
  | [] => none
  | (gKillMe, gLIFO) :: rest =>
    match checkStackEmpty gKillMe false gLIFO with
    | .waiting => popWaitTrace rest
    | r => some r

/-- A blocked push: the rescheduled `checkStackFull` closure, analogously. -/
def pushWaitTrace (maxStackSize : Nat) (combinedPayload : Payload) :
    List (Bool × List Payload) → Option PushStep
  | [] => none
  | (gKillMe, gLIFO) :: rest =>
    match checkStackFull gKillMe false maxStackSize gLIFO combinedPayload with
    | .waiting => pushWaitTrace maxStackSize combinedPayload rest
    | r => some r

/-- Claim C9: `shutdown()` sets the halt flag; a pop blocked on an empty
stack (resp. a push blocked on a full stack) whose retry loop observes the
halt flag abandons: it never modifies the stack and never sends a response
byte to its client, no matter what happens afterwards. -/
theorem halt_abandons (n maxStackSize : Nat) (fullStack anyStack : List Payload)
    (rest : List (Bool × List Payload)) (p : Payload) (st : ServerState)
    (hfull : maxStackSize ≤ fullStack.length) :
    (shutdown st).gKillMe = true ∧
    popWaitTrace
      (List.replicate n (false, ([] : List Payload)) ++ (true, anyStack) :: rest) =
      some .abandoned ∧
    pushWaitTrace maxStackSize p
      (List.replicate n (false, fullStack) ++ (true, anyStack) :: rest) =
      some .abandoned ∧
    PopStep.response .abandoned = none ∧
    PopStep.stackAfter anyStack .abandoned = anyStack ∧
    PushStep.response .abandoned = none ∧
    PushStep.stackAfter anyStack .abandoned = anyStack := by
  refine ⟨rfl, ?_, ?_, rfl, rfl, rfl, rfl⟩
  · induction n with
    | zero => simp [popWaitTrace, checkStackEmpty]
    | succ n ih => simpa [popWaitTrace, checkStackEmpty] using ih
  · induction n with
    | zero => simp [pushWaitTrace, checkStackFull]
    | succ n ih =>
      have hnl : ¬ fullStack.length < maxStackSize := by omega
      simpa [pushWaitTrace, checkStackFull, hnl] using ih

theorem halt_abandons_spot :
    (1 ≤ ([[0x42]] : List Payload).length) ∧
    (((shutdown ⟨false, true, true⟩).gKillMe = true) ∧
     popWaitTrace
       (List.replicate 2 (false, ([] : List Payload)) ++ (true, [[0x41]]) :: []) =
       some .abandoned ∧
     pushWaitTrace 1 [0x43]
       (List.replicate 2 (false, [[0x42]]) ++ (true, [[0x41]]) :: []) =
       some .abandoned ∧
     PopStep.response .abandoned = none ∧
     PopStep.stackAfter [[0x41]] .abandoned = [[0x41]] ∧
     PushStep.response .abandoned = none ∧
     PushStep.stackAfter [[0x41]] .abandoned = [[0x41]]) :=
  ⟨by decide, halt_abandons 2 1 [[0x42]] [[0x41]] [] [0x43] ⟨false, true, true⟩ (by decide)⟩

/-! ## Accept-time event ordering -/

/-- An asynchronous job pending for one freshly accepted connection: the
`appServer.getConnections` callback (queued through `process.nextTick`) or
an inbound `data` event (an I/O event). -/
inductive NodeJob where
  | admissionCb
  | dataEvent (i : Nat)
deriving DecidableEq, Repr

/-- The observable actions for one connection. -/
inductive NodeAction where
  | insertRegistry
  | decideAdmission
  | processData (i : Nat)
deriving DecidableEq, Repr

/-- Dispatching one pending job. -/
def runJob : NodeJob → NodeAction
  | .admissionCb => .decideAdmission
  | .dataEvent i => .processData i

/-- The Node event loop as observed after the accept handler returns: the
`process.nextTick` queue is drained completely before any pending I/O event
is dispatched. -/
def runLoop (nextTicks ioEvents : List NodeJob) : List NodeAction :=
  nextTicks.map runJob ++ ioEvents.map runJob

/-- The action order for one accepted connection (`server.js` lines
118-172): the accept-handler body runs synchronously - it calls
`appServer.getConnections` (deferring the admission decision to the
nextTick queue, line 137) and then inserts the `gClients` record (line
166) - and only afterwards does the event loop dispatch the queued jobs. -/
def acceptConnection (ioEvents : List NodeJob) : List NodeAction :=
  NodeAction.insertRegistry :: runLoop [NodeJob.admissionCb] ioEvents

/-- Claim C8: for every newly accepted connection and every sequence of
pending inbound data events, the admission decision happens after the
registry insertion of the new connection and before any inbound data is
processed by the protocol state machine. -/
theorem admission_decision_order (ds : List Nat) :
    acceptConnection (ds.map NodeJob.dataEvent) =
      NodeAction.insertRegistry :: NodeAction.decideAdmission ::
        ds.map NodeAction.processData := by
  simp [acceptConnection, runLoop, runJob, List.map_map, Function.comp]

end Philo
